import Mathlib

/-!
Verification of the gcache byte-cache facade (gcache.go, gcache_ttl.go).

Byte sequences are `List Nat` (each entry a byte value), the wall clock is an
explicit `Int` parameter in epoch milliseconds (Go's `time.Now().UnixMilli()`),
and durations are `Int` milliseconds.  The external capacity-bounded store
consumed by the facade (the fastcache collaborator) is not part of this
codebase; it is modelled from the spec as a partial map, with `none` meaning
absent.  Every facade operation is translated in state-passing style: it
returns its Go result paired with the store left behind, so that read paths
demonstrably leave the store unchanged.
-/

/-- Byte sequences (Go `[]byte` values). -/
abbrev Bytes := List Nat

/-- Modelled from the spec: the external capacity-bounded byte store (spec
section 6, the consumed collaborator, not part of this repository's code):
a map from string keys to stored byte values, `none` meaning absent.  Its
internal sharding, eviction and per-item size ceiling are out of scope. -/
def Store := String → Option Bytes

/-- The store as produced by its constructor: empty. -/
def emptyStore : Store := fun _ => none

/-- Modelled from the spec: the store's `Has`: whether any entry is held. -/
def fastcacheHas (c : Store) (key : String) : Bool :=
  (c key).isSome

/-- Modelled from the spec: the store's `Get` appends the stored value onto
the caller-provided scratch buffer `dst` and returns it, or signals absence. -/
def fastcacheGet (c : Store) (dst : Bytes) (key : String) : Option Bytes :=
  (c key).map (fun v => dst ++ v)

/-- Modelled from the spec: the store's `Set`: unconditional insert/overwrite. -/
def fastcacheSet (c : Store) (key : String) (value : Bytes) : Store :=
  fun k => if k = key then some value else c k

/-- Modelled from the spec: the store's `Del`: remove if present. -/
def fastcacheDel (c : Store) (key : String) : Store :=
  fun k => if k = key then none else c k

/-- Modelled from the spec: the store's `Reset`: empty all entries. -/
def fastcacheReset (_ : Store) : Store :=
  fun _ => none

namespace Cache

/-- `Cache.Has` (gcache.go): delegates to the store; the store is returned
unchanged as the second component. -/
def Has (c : Store) (key : String) : Bool × Store :=
  (fastcacheHas c key, c)

/-- `Cache.Get` (gcache.go): takes a length-0 scratch buffer from the pool,
lets the store append into it, and on a hit copies the bytes out into a fresh
buffer (value-equal to the scratch contents); `none` models the nil result
returned on a miss.  The store is never written. -/
def Get (c : Store) (key : String) : Option Bytes × Store :=
  match fastcacheGet c [] key with
  | none => (none, c)
  | some dst => (some dst, c)

/-- `Cache.Set` (gcache.go): stores the value and returns a nil error. -/
def Set (c : Store) (key : String) (value : Bytes) : Option String × Store :=
  (none, fastcacheSet c key value)

/-- `Cache.Delete` (gcache.go): deletes the key and returns a nil error. -/
def Delete (c : Store) (key : String) : Option String × Store :=
  (none, fastcacheDel c key)

/-- `Cache.Close` (gcache.go): resets the store and returns a nil error. -/
def Close (c : Store) : Option String × Store :=
  (none, fastcacheReset c)

end Cache

/-- Go's `uint64(x)` applied to an `int64` value: reduction modulo 2^64. -/
def uint64OfInt64 (i : Int) : Nat :=
  (i % (2 ^ 64 : Int)).toNat

/-- Go's `int64(u)` applied to a `uint64` value. -/
def int64OfUint64 (u : Nat) : Int :=
  if u < 2 ^ 63 then (u : Int) else (u : Int) - 2 ^ 64

/-- `binary.BigEndian.PutUint64`: the 8 bytes of `x`, most significant first. -/
def putUint64BE (x : Nat) : Bytes :=
  [x / 2 ^ 56 % 256, x / 2 ^ 48 % 256, x / 2 ^ 40 % 256, x / 2 ^ 32 % 256,
   x / 2 ^ 24 % 256, x / 2 ^ 16 % 256, x / 2 ^ 8 % 256, x % 256]

/-- `binary.BigEndian.Uint64` read from the first 8 bytes. -/
def beUint64 (b : Bytes) : Nat :=
  b.getD 0 0 * 2 ^ 56 + b.getD 1 0 * 2 ^ 48 + b.getD 2 0 * 2 ^ 40 +
  b.getD 3 0 * 2 ^ 32 + b.getD 4 0 * 2 ^ 24 + b.getD 5 0 * 2 ^ 16 +
  b.getD 6 0 * 2 ^ 8 + b.getD 7 0

/-- `wrapCacheWithTTL` (gcache_ttl.go): `expireAt := now + ttl` in epoch
milliseconds, encoded through Go's `uint64` cast as 8 big-endian bytes and
prepended to the payload. -/
def wrapCacheWithTTL (now : Int) (data : Bytes) (ttl : Int) : Bytes :=
  putUint64BE (uint64OfInt64 (now + ttl)) ++ data

/-- `unwrapCacheWithTTL` (gcache_ttl.go): inputs shorter than 8 bytes are
invalid; otherwise the leading 8 bytes decode (through Go's `int64` cast) to
`expireAt`, and `now >= expireAt` means expired; valid inputs yield the bytes
after the prefix. -/
def unwrapCacheWithTTL (now : Int) (data : Bytes) : Option Bytes :=
  if data.length < 8 then none
  else if now ≥ int64OfUint64 (beUint64 (data.take 8)) then none
  else some (data.drop 8)

namespace CacheWithTTL

/-- `CacheWithTTL.Has` (gcache_ttl.go): unwraps the inner `Get` result and
reports whether it was valid.  A nil inner result is a slice of length 0. -/
def Has (now : Int) (c : Store) (key : String) : Bool × Store :=
  ((unwrapCacheWithTTL now (((Cache.Get c key).1).getD [])).isSome,
   (Cache.Get c key).2)

/-- `CacheWithTTL.Get` (gcache_ttl.go): unwraps the inner `Get` result,
returning nil on an invalid envelope and the payload otherwise. -/
def Get (now : Int) (c : Store) (key : String) : Option Bytes × Store :=
  match unwrapCacheWithTTL now (((Cache.Get c key).1).getD []) with
  | none => (none, (Cache.Get c key).2)
  | some data => (some data, (Cache.Get c key).2)

/-- `CacheWithTTL.Set` (gcache_ttl.go): wraps the value with the TTL envelope
and delegates to the inner `Set`. -/
def Set (now : Int) (c : Store) (key : String) (value : Bytes) (ttl : Int) :
    Option String × Store :=
  Cache.Set c key (wrapCacheWithTTL now value ttl)

/-- `CacheWithTTL.Delete` (gcache_ttl.go): passes through to the inner facade. -/
def Delete (c : Store) (key : String) : Option String × Store :=
  Cache.Delete c key

/-- `CacheWithTTL.Close` (gcache_ttl.go): passes through to the inner facade. -/
def Close (c : Store) : Option String × Store :=
  Cache.Close c

end CacheWithTTL

theorem putUint64BE_length (x : Nat) : (putUint64BE x).length = 8 := rfl

theorem uint64OfInt64_lt (i : Int) : uint64OfInt64 i < 2 ^ 64 := by
  have h1 : i % (2 ^ 64 : Int) < (2 ^ 64 : Int) :=
    Int.emod_lt_of_pos i (by decide)
  exact (Int.toNat_lt_toNat (by decide)).mpr h1

theorem byteSplit (x k : Nat) :
    x % (2 ^ k * 256) = x / 2 ^ k % 256 * 2 ^ k + x % 2 ^ k := by
  rw [Nat.mod_mul, Nat.add_comm, Nat.mul_comm]

theorem beUint64_putUint64BE (x : Nat) (h : x < 2 ^ 64) :
    beUint64 (putUint64BE x) = x := by
  show x / 2 ^ 56 % 256 * 2 ^ 56 + x / 2 ^ 48 % 256 * 2 ^ 48 +
      x / 2 ^ 40 % 256 * 2 ^ 40 + x / 2 ^ 32 % 256 * 2 ^ 32 +
      x / 2 ^ 24 % 256 * 2 ^ 24 + x / 2 ^ 16 % 256 * 2 ^ 16 +
      x / 2 ^ 8 % 256 * 2 ^ 8 + x % 256 = x
  have e : x = x / 2 ^ 56 % 256 * 2 ^ 56 + (x / 2 ^ 48 % 256 * 2 ^ 48 +
      (x / 2 ^ 40 % 256 * 2 ^ 40 + (x / 2 ^ 32 % 256 * 2 ^ 32 +
      (x / 2 ^ 24 % 256 * 2 ^ 24 + (x / 2 ^ 16 % 256 * 2 ^ 16 +
      (x / 2 ^ 8 % 256 * 2 ^ 8 + x % 256)))))) := by
    calc x = x % (2 ^ 56 * 256) := (Nat.mod_eq_of_lt h).symm
    _ = x / 2 ^ 56 % 256 * 2 ^ 56 + x % (2 ^ 48 * 256) := byteSplit x 56
    _ = x / 2 ^ 56 % 256 * 2 ^ 56 + (x / 2 ^ 48 % 256 * 2 ^ 48 +
        x % (2 ^ 40 * 256)) := by rw [byteSplit x 48]; exact rfl
    _ = x / 2 ^ 56 % 256 * 2 ^ 56 + (x / 2 ^ 48 % 256 * 2 ^ 48 +
        (x / 2 ^ 40 % 256 * 2 ^ 40 + x % (2 ^ 32 * 256))) := by
          rw [byteSplit x 40]; exact rfl
    _ = x / 2 ^ 56 % 256 * 2 ^ 56 + (x / 2 ^ 48 % 256 * 2 ^ 48 +
        (x / 2 ^ 40 % 256 * 2 ^ 40 + (x / 2 ^ 32 % 256 * 2 ^ 32 +
        x % (2 ^ 24 * 256)))) := by rw [byteSplit x 32]; exact rfl
    _ = x / 2 ^ 56 % 256 * 2 ^ 56 + (x / 2 ^ 48 % 256 * 2 ^ 48 +
        (x / 2 ^ 40 % 256 * 2 ^ 40 + (x / 2 ^ 32 % 256 * 2 ^ 32 +
        (x / 2 ^ 24 % 256 * 2 ^ 24 + x % (2 ^ 16 * 256))))) := by
          rw [byteSplit x 24]; exact rfl
    _ = x / 2 ^ 56 % 256 * 2 ^ 56 + (x / 2 ^ 48 % 256 * 2 ^ 48 +
        (x / 2 ^ 40 % 256 * 2 ^ 40 + (x / 2 ^ 32 % 256 * 2 ^ 32 +
        (x / 2 ^ 24 % 256 * 2 ^ 24 + (x / 2 ^ 16 % 256 * 2 ^ 16 +
        x % (2 ^ 8 * 256)))))) := by rw [byteSplit x 16]; exact rfl
    _ = x / 2 ^ 56 % 256 * 2 ^ 56 + (x / 2 ^ 48 % 256 * 2 ^ 48 +
        (x / 2 ^ 40 % 256 * 2 ^ 40 + (x / 2 ^ 32 % 256 * 2 ^ 32 +
        (x / 2 ^ 24 % 256 * 2 ^ 24 + (x / 2 ^ 16 % 256 * 2 ^ 16 +
        (x / 2 ^ 8 % 256 * 2 ^ 8 + x % 256)))))) := by
          rw [byteSplit x 8]; exact rfl
  simp only [Nat.add_assoc]
  exact e.symm

theorem int64_roundtrip (i : Int) (h1 : -(2 ^ 63) ≤ i) (h2 : i < 2 ^ 63) :
    int64OfUint64 (uint64OfInt64 i) = i := by
  unfold int64OfUint64 uint64OfInt64
  rcases le_or_lt 0 i with hpos | hneg
  · have he : i % (2 ^ 64 : Int) = i :=
      Int.emod_eq_of_lt hpos (lt_trans h2 (by decide))
    have hlt : i.toNat < 2 ^ 63 := (Int.toNat_lt_toNat (by decide)).mpr h2
    rw [he, if_pos hlt]
    exact Int.toNat_of_nonneg hpos
  · have h0 : (0 : Int) ≤ i + 2 ^ 64 := by
      have hstep := add_le_add_right h1 (2 ^ 64 : Int)
      exact le_trans (by decide) hstep
    have hlt2 : i + 2 ^ 64 < 2 ^ 64 := by
      have hstep := add_lt_add_right hneg (2 ^ 64 : Int)
      rwa [zero_add] at hstep
    have hb : (i + (2 : Int) ^ 64 * 1) % (2 ^ 64 : Int) = i % 2 ^ 64 :=
      Int.add_mul_emod_self_left i (2 ^ 64) 1
    have he : i % (2 ^ 64 : Int) = i + 2 ^ 64 := by
      rw [← hb, mul_one]
      exact Int.emod_eq_of_lt h0 hlt2
    have hge1 : ((2 : Int) ^ 63).toNat ≤ (i + 2 ^ 64).toNat := by
      refine Int.toNat_le_toNat ?_
      calc (2 ^ 63 : Int) = -(2 ^ 63) + 2 ^ 64 := by decide
      _ ≤ i + 2 ^ 64 := add_le_add_right h1 (2 ^ 64 : Int)
    have hge : (2 ^ 63 : Nat) ≤ (i + 2 ^ 64).toNat := hge1
    rw [he, if_neg (not_lt.mpr hge), Int.toNat_of_nonneg h0]
    exact add_sub_cancel_right i (2 ^ 64)

theorem cacheGet_fst (c : Store) (k : String) : (Cache.Get c k).1 = c k := by
  unfold Cache.Get fastcacheGet
  cases c k <;> rfl

theorem cacheGet_snd (c : Store) (k : String) : (Cache.Get c k).2 = c := by
  unfold Cache.Get fastcacheGet
  cases c k <;> rfl

theorem fastcacheSet_self (c : Store) (k : String) (v : Bytes) :
    fastcacheSet c k v k = some v := by
  unfold fastcacheSet
  exact if_pos rfl

theorem ttlGet_fst (now : Int) (c : Store) (k : String) :
    (CacheWithTTL.Get now c k).1 =
      unwrapCacheWithTTL now ((c k).getD []) := by
  unfold CacheWithTTL.Get
  rw [cacheGet_fst]
  cases unwrapCacheWithTTL now ((c k).getD []) <;> rfl

theorem unwrap_wrap (tset tread ttl : Int) (v : Bytes)
    (h1 : -(2 ^ 63) ≤ tset + ttl) (h2 : tset + ttl < 2 ^ 63) :
    unwrapCacheWithTTL tread (wrapCacheWithTTL tset v ttl) =
      if tset + ttl ≤ tread then none else some v := by
  unfold wrapCacheWithTTL unwrapCacheWithTTL
  have hlen : (putUint64BE (uint64OfInt64 (tset + ttl))).length = 8 := rfl
  have htake : (putUint64BE (uint64OfInt64 (tset + ttl)) ++ v).take 8 =
      putUint64BE (uint64OfInt64 (tset + ttl)) := by
    rw [← hlen]
    exact List.take_left _ _
  have hdrop : (putUint64BE (uint64OfInt64 (tset + ttl)) ++ v).drop 8 = v := by
    rw [← hlen]
    exact List.drop_left _ _
  rw [List.length_append, hlen, htake, hdrop,
    beUint64_putUint64BE _ (uint64OfInt64_lt _), int64_roundtrip _ h1 h2]
  have hnot : ¬ (8 + v.length < 8) := Nat.not_lt.mpr (Nat.le_add_right 8 v.length)
  rw [if_neg hnot]

/-- Claim C2: for every payload and every ttl (zero and negative included,
neither is an error), `wrapCacheWithTTL` is the 8-byte big-endian encoding of
the Go `uint64` cast of `expireAt = now + ttl` followed by the unmodified
payload; the length is always `8 + len payload`, and whenever `expireAt` is
representable as an unsigned 64-bit value the encoded integer is exactly
`expireAt`. -/
theorem C2_wrap_layout (now ttl : Int) (data : Bytes) :
    (wrapCacheWithTTL now data ttl).length = 8 + data.length ∧
    (wrapCacheWithTTL now data ttl).take 8 =
      putUint64BE (uint64OfInt64 (now + ttl)) ∧
    (wrapCacheWithTTL now data ttl).drop 8 = data ∧
    beUint64 ((wrapCacheWithTTL now data ttl).take 8) = uint64OfInt64 (now + ttl) ∧
    (0 ≤ now + ttl → now + ttl < 2 ^ 64 →
      (beUint64 ((wrapCacheWithTTL now data ttl).take 8) : Int) = now + ttl) := by
  have hlen : (putUint64BE (uint64OfInt64 (now + ttl))).length = 8 := rfl
  have htake : (wrapCacheWithTTL now data ttl).take 8 =
      putUint64BE (uint64OfInt64 (now + ttl)) := by
    unfold wrapCacheWithTTL
    rw [← hlen]
    exact List.take_left _ _
  refine ⟨?_, htake, ?_, ?_, ?_⟩
  · unfold wrapCacheWithTTL
    rw [List.length_append, hlen]
  · unfold wrapCacheWithTTL
    rw [← hlen]
    exact List.drop_left _ _
  · rw [htake]
    exact beUint64_putUint64BE _ (uint64OfInt64_lt _)
  · intro hpos hlt
    rw [htake, beUint64_putUint64BE _ (uint64OfInt64_lt _)]
    unfold uint64OfInt64
    rw [Int.emod_eq_of_lt hpos hlt, Int.toNat_of_nonneg hpos]

/-- Witness for C2 at a concrete input: payload `[1, 2, 3]`, negative ttl. -/
theorem C2_wrap_layout_witness :
    (wrapCacheWithTTL 100 [1, 2, 3] (-40)).length = 8 + ([1, 2, 3] : Bytes).length ∧
    (wrapCacheWithTTL 100 [1, 2, 3] (-40)).take 8 =
      putUint64BE (uint64OfInt64 (100 + -40)) ∧
    (wrapCacheWithTTL 100 [1, 2, 3] (-40)).drop 8 = [1, 2, 3] ∧
    beUint64 ((wrapCacheWithTTL 100 [1, 2, 3] (-40)).take 8) =
      uint64OfInt64 (100 + -40) ∧
    (0 ≤ (100 : Int) + -40 → (100 : Int) + -40 < 2 ^ 64 →
      (beUint64 ((wrapCacheWithTTL 100 [1, 2, 3] (-40)).take 8) : Int) = 100 + -40) :=
  C2_wrap_layout 100 (-40) [1, 2, 3]

/-- Claim C3: `unwrapCacheWithTTL` is total and returns no payload exactly
when the input is shorter than 8 bytes or `now ≥ expireAt` (the expiry
boundary is inclusive); otherwise it returns the bytes after the 8-byte
prefix. -/
theorem C3_unwrap_total (now : Int) (data : Bytes) :
    unwrapCacheWithTTL now data =
      if data.length < 8 ∨ now ≥ int64OfUint64 (beUint64 (data.take 8)) then none
      else some (data.drop 8) := by
  unfold unwrapCacheWithTTL
  by_cases h1 : data.length < 8
  · rw [if_pos h1, if_pos (Or.inl h1)]
  · by_cases h2 : now ≥ int64OfUint64 (beUint64 (data.take 8))
    · rw [if_neg h1, if_pos h2, if_pos (Or.inr h2)]
    · rw [if_neg h1, if_neg h2, if_neg (fun hc => hc.elim h1 h2)]

/-- Claim C4: after the TTL facade's `Set` at time `t0`, a `Get` strictly
before `t0 + ttl` returns exactly the stored value and a `Get` at or after
`t0 + ttl` returns absent; with zero or negative ttl the very next `Get`
returns absent.  The hypotheses say `expireAt = t0 + ttl` is in the `int64`
range, which Go's `int64` clock and `Duration` types always give. -/
theorem C4_ttl_boundary (t0 t : Int) (c : Store) (k : String) (v : Bytes)
    (ttl : Int) (h1 : -(2 ^ 63) ≤ t0 + ttl) (h2 : t0 + ttl < 2 ^ 63) :
    (t < t0 + ttl →
      (CacheWithTTL.Get t (CacheWithTTL.Set t0 c k v ttl).2 k).1 = some v) ∧
    (t0 + ttl ≤ t →
      (CacheWithTTL.Get t (CacheWithTTL.Set t0 c k v ttl).2 k).1 = none) ∧
    (ttl ≤ 0 → t0 ≤ t →
      (CacheWithTTL.Get t (CacheWithTTL.Set t0 c k v ttl).2 k).1 = none) := by
  have hset : (CacheWithTTL.Set t0 c k v ttl).2 k =
      some (wrapCacheWithTTL t0 v ttl) := fastcacheSet_self c k _
  have hget : (CacheWithTTL.Get t (CacheWithTTL.Set t0 c k v ttl).2 k).1 =
      if t0 + ttl ≤ t then none else some v := by
    rw [ttlGet_fst, hset, Option.getD_some]
    exact unwrap_wrap t0 t ttl v h1 h2
  refine ⟨?_, ?_, ?_⟩
  · intro ht
    rw [hget, if_neg (not_le.mpr ht)]
  · intro ht
    rw [hget, if_pos ht]
  · intro httl ht
    have hstep : t0 + ttl ≤ t0 := le_of_le_of_eq (add_le_add_left httl t0) (add_zero t0)
    rw [hget, if_pos (le_trans hstep ht)]

/-- Witness for C4 at a concrete input: set at time 1000 with ttl 500 and
read back at time 1200, before the deadline. -/
theorem C4_ttl_boundary_witness :
    (CacheWithTTL.Get 1200
      (CacheWithTTL.Set 1000 emptyStore "a" [7] 500).2 "a").1 = some [7] :=
  (C4_ttl_boundary 1000 1200 emptyStore "a" [7] 500 (by decide)
    (by decide)).1 (by decide)

/-- Claim C5: plain-facade round-trip: after `Set k v` (any value, the
zero-length one included), `Get k` returns exactly `v` — a present value, not
absent — and `Has k` is true. -/
theorem C5_roundtrip (c : Store) (k : String) (v : Bytes) :
    (Cache.Get (Cache.Set c k v).2 k).1 = some v ∧
    (Cache.Has (Cache.Set c k v).2 k).1 = true := by
  have h : (Cache.Set c k v).2 k = some v := fastcacheSet_self c k v
  constructor
  · rw [cacheGet_fst, h]
  · show ((Cache.Set c k v).2 k).isSome = true
    rw [h]
    rfl

/-- Claim C6: on the TTL facade, `Has` answers exactly whether `Get` on the
same store at the same time is non-absent, for every store state; in
particular a key whose stored envelope has expired answers false. -/
theorem C6_has_iff_get (now : Int) (c : Store) (k : String) :
    (CacheWithTTL.Has now c k).1 = ((CacheWithTTL.Get now c k).1).isSome := by
  have h1 : (CacheWithTTL.Has now c k).1 =
      (unwrapCacheWithTTL now ((c k).getD [])).isSome := by
    unfold CacheWithTTL.Has
    rw [cacheGet_fst]
  rw [h1, ttlGet_fst]

/-- Claim C7: overwriting a key before its first expiry replaces the expiry
with exactly `t2 + ttl2` (fresh timestamp, not additive): a `Get` past the
first deadline but strictly before the second still returns the value, and a
`Get` at or past `t2 + ttl2` misses. -/
theorem C7_ttl_overwrite (t1 t2 t t3 : Int) (c : Store) (k : String)
    (v : Bytes) (ttl1 ttl2 : Int) (hord : t1 < t2) (hbefore : t2 < t1 + ttl1)
    (h1 : -(2 ^ 63) ≤ t2 + ttl2) (h2 : t2 + ttl2 < 2 ^ 63) :
    (t1 + ttl1 ≤ t → t < t2 + ttl2 →
      (CacheWithTTL.Get t
        (CacheWithTTL.Set t2 (CacheWithTTL.Set t1 c k v ttl1).2 k v ttl2).2
        k).1 = some v) ∧
    (t2 + ttl2 ≤ t3 →
      (CacheWithTTL.Get t3
        (CacheWithTTL.Set t2 (CacheWithTTL.Set t1 c k v ttl1).2 k v ttl2).2
        k).1 = none) := by
  have hset : (CacheWithTTL.Set t2 (CacheWithTTL.Set t1 c k v ttl1).2 k v
      ttl2).2 k = some (wrapCacheWithTTL t2 v ttl2) := fastcacheSet_self _ k _
  constructor
  · intro hpast ht
    rw [ttlGet_fst, hset, Option.getD_some,
      unwrap_wrap t2 t ttl2 v h1 h2, if_neg (not_le.mpr ht)]
  · intro ht
    rw [ttlGet_fst, hset, Option.getD_some,
      unwrap_wrap t2 t3 ttl2 v h1 h2, if_pos ht]

/-- Witness for C7 at a concrete input: set at 1000 with ttl 50, overwrite at
1040 with ttl 200, read at 1060 (past the first deadline 1050, before the
second deadline 1240). -/
theorem C7_ttl_overwrite_witness :
    (CacheWithTTL.Get 1060
      (CacheWithTTL.Set 1040 (CacheWithTTL.Set 1000 emptyStore "a" [9] 50).2
        "a" [9] 200).2 "a").1 = some [9] :=
  (C7_ttl_overwrite 1000 1040 1060 1300 emptyStore "a" [9] 50 200 (by decide)
    (by decide) (by decide) (by decide)).1 (by decide) (by decide)

/-- Claim C8: reads never write: `Get` and `Has` on both facades return the
store exactly as they found it, even when the TTL facade meets a malformed or
expired envelope (no eager deletion). -/
theorem C8_reads_pure (now : Int) (c : Store) (k : String) :
    (Cache.Get c k).2 = c ∧ (Cache.Has c k).2 = c ∧
    (CacheWithTTL.Get now c k).2 = c ∧ (CacheWithTTL.Has now c k).2 = c := by
  refine ⟨cacheGet_snd c k, rfl, ?_, ?_⟩
  · unfold CacheWithTTL.Get
    split <;> exact cacheGet_snd c k
  · unfold CacheWithTTL.Has
    exact cacheGet_snd c k

/-- Claim C9: `Set`, `Delete` and `Close` on both facades always return a nil
error, for every key, value and ttl. -/
theorem C9_writes_succeed (now : Int) (c : Store) (k : String) (v : Bytes)
    (ttl : Int) :
    (Cache.Set c k v).1 = none ∧ (Cache.Delete c k).1 = none ∧
    (Cache.Close c).1 = none ∧ (CacheWithTTL.Set now c k v ttl).1 = none ∧
    (CacheWithTTL.Delete c k).1 = none ∧ (CacheWithTTL.Close c).1 = none :=
  ⟨rfl, rfl, rfl, rfl, rfl, rfl⟩

/-- Claim C10: the int64→uint64→int64 cast pair used by wrap and unwrap is
the identity on the whole `int64` range, so a negative `expireAt` decodes
back as the same negative value and an envelope carrying a negative expiry is
expired for every nonnegative clock reading, never far in the future. -/
theorem C10_cast_roundtrip (i now tset ttl : Int) (v : Bytes)
    (h1 : -(2 ^ 63) ≤ i) (h2 : i < 2 ^ 63)
    (h3 : -(2 ^ 63) ≤ tset + ttl) (h4 : tset + ttl < 0) (h5 : 0 ≤ now) :
    int64OfUint64 (uint64OfInt64 i) = i ∧
    unwrapCacheWithTTL now (wrapCacheWithTTL tset v ttl) = none := by
  refine ⟨int64_roundtrip i h1 h2, ?_⟩
  rw [unwrap_wrap tset now ttl v h3 (lt_trans h4 (by decide)),
    if_pos (le_trans (le_of_lt h4) h5)]

/-- Witness for C10 at a concrete input: the value -5 round-trips and an
envelope written at time 10 with ttl -20 (expiry -10) is expired at time 0. -/
theorem C10_cast_roundtrip_witness :
    int64OfUint64 (uint64OfInt64 (-5)) = -5 ∧
    unwrapCacheWithTTL 0 (wrapCacheWithTTL 10 [1] (-20)) = none :=
  C10_cast_roundtrip (-5) 0 10 (-20) [1] (by decide) (by decide)
    (by decide) (by decide) (by decide)
